import Mathlib

/-
Verification of the core geometry of a small ray tracer
(sources: src/vec3.rs and src/main.rs).

The Rust code computes over IEEE-754 f32.  The embedding below models the
floating-point scalars as real numbers: every arithmetic operation of the
source is translated literally, with Real.sqrt standing for f32 sqrt.  All
concrete test inputs of the repository (small integers and halves) are
exactly representable in f32 and their arithmetic in the tests is exact, so
the real-valued model agrees with the code on them.
-/

noncomputable section

/-- The Vec3 struct of src/vec3.rs: three scalar components. -/
structure Vec3 where
  x : ℝ
  y : ℝ
  z : ℝ

namespace Vec3

/-- Component-wise negation (impl ops Neg for Vec3). -/
def neg (v : Vec3) : Vec3 :=
  { x := -v.x, y := -v.y, z := -v.z }

/-- Component-wise addition (impl ops Add for Vec3). -/
def add (a b : Vec3) : Vec3 :=
  { x := a.x + b.x, y := a.y + b.y, z := a.z + b.z }

/-- Subtraction, defined in the source as self + (-other). -/
def sub (a b : Vec3) : Vec3 :=
  add a (neg b)

/-- Scalar multiplication (impl ops Mul for Vec3). -/
def mul (v : Vec3) (k : ℝ) : Vec3 :=
  { x := v.x * k, y := v.y * k, z := v.z * k }

/-- Scalar division (impl ops Div for Vec3). -/
def div (v : Vec3) (k : ℝ) : Vec3 :=
  { x := v.x / k, y := v.y / k, z := v.z / k }

/-- Euclidean length: sqrt of the sum of squared components. -/
def length (v : Vec3) : ℝ :=
  Real.sqrt (v.x ^ 2 + v.y ^ 2 + v.z ^ 2)

/-- Right-handed cross product, exactly as written in the source. -/
def cross (a b : Vec3) : Vec3 :=
  { x := a.y * b.z - b.y * a.z
    y := a.z * b.x - b.z * a.x
    z := a.x * b.y - b.x * a.y }

/-- Dot product. -/
def dot (a b : Vec3) : ℝ :=
  a.x * b.x + a.y * b.y + a.z * b.z

end Vec3

theorem Vec3.ext_iff' (a b : Vec3) : a = b ↔ a.x = b.x ∧ a.y = b.y ∧ a.z = b.z := by
  constructor
  · intro h; subst h; exact ⟨rfl, rfl, rfl⟩
  · rintro ⟨h1, h2, h3⟩
    cases a; cases b
    simp_all

/-- C7: the cross product is antisymmetric, cross a b equals the negation of
cross b a, and the cross product of any vector with itself is the zero
vector (over the real-valued model every vector is non-degenerate). -/
theorem cross_antisymm_and_self :
    ∀ a b : Vec3, Vec3.cross a b = Vec3.neg (Vec3.cross b a) ∧
      Vec3.cross a a = { x := 0, y := 0, z := 0 } := by
  intro a b
  constructor
  · simp only [Vec3.cross, Vec3.neg, Vec3.ext_iff']
    refine ⟨by ring, by ring, by ring⟩
  · simp only [Vec3.cross, Vec3.ext_iff']
    refine ⟨by ring, by ring, by ring⟩

/-- C8: the dot product distributes over component-wise vector addition,
dot a (b + c) = dot a b + dot a c. -/
theorem dot_add_bilinear :
    ∀ a b c : Vec3, Vec3.dot a (Vec3.add b c) = Vec3.dot a b + Vec3.dot a c := by
  intro a b c
  simp only [Vec3.dot, Vec3.add, Vec3.neg]
  ring

/-- The Ray struct of src/main.rs: an origin point and a direction vector. -/
structure Ray where
  origin : Vec3
  direction : Vec3

/-- The Sphere struct of src/main.rs: a radius and a center position. -/
structure Sphere where
  radius : ℝ
  position : Vec3

/-- Sphere intersect_t from src/main.rs, translated statement by statement:
quadratic coefficients from the ray and sphere, early return None on a
negative discriminant, then the near root t1 (returned when t1 >= 0), then
the far root t2 (returned when t2 > 0), else None. -/
def Sphere.intersect_t (s : Sphere) (r : Ray) : Option ℝ :=
  let os := Vec3.sub r.origin s.position
  let a := Vec3.dot r.direction r.direction
  let b := 2 * Vec3.dot r.direction os
  let c := Vec3.dot os os - s.radius * s.radius
  let discriminant := b * b - 4 * a * c
  if discriminant < 0 then
    none
  else
    let t1 := (-b - Real.sqrt discriminant) / (2 * a)
    if t1 ≥ 0 then
      some t1
    else
      let t2 := (-b + Real.sqrt discriminant) / (2 * a)
      if t2 > 0 then
        some t2
      else
        none

/-- Sphere intersect from src/main.rs: maps the distance returned by
intersect_t to the hit point origin + direction * t. -/
def Sphere.intersect (s : Sphere) (r : Ray) : Option Vec3 :=
  match s.intersect_t r with
  | none => none
  | some t => some (Vec3.add r.origin (Vec3.mul r.direction t))

/-- The decision sequence exactly as the specification words it: os, a, b, c
and the discriminant written with squares, None when the discriminant is
negative, Some t1 when 0 <= t1, Some t2 when 0 < t2 strictly, else None. -/
def intersect_t_specification (s : Sphere) (r : Ray) : Option ℝ :=
  let os := Vec3.sub r.origin s.position
  let a := Vec3.dot r.direction r.direction
  let b := 2 * Vec3.dot r.direction os
  let c := Vec3.dot os os - s.radius ^ 2
  let discriminant := b ^ 2 - 4 * a * c
  if discriminant < 0 then
    none
  else
    let t1 := (-b - Real.sqrt discriminant) / (2 * a)
    if 0 ≤ t1 then
      some t1
    else
      let t2 := (-b + Real.sqrt discriminant) / (2 * a)
      if 0 < t2 then
        some t2
      else
        none

/-- The unit sphere at the origin used by the test suite of the repository. -/
def unitSphere : Sphere :=
  { radius := 1, position := { x := 0, y := 0, z := 0 } }

/-- Test ray: origin (-10,0,0), direction (1,0,0). -/
def rayHit : Ray :=
  { origin := { x := -10, y := 0, z := 0 }, direction := { x := 1, y := 0, z := 0 } }

/-- Test ray: origin (-10,0,0), direction (-1,0,0), pointing away. -/
def rayAway : Ray :=
  { origin := { x := -10, y := 0, z := 0 }, direction := { x := -1, y := 0, z := 0 } }

/-- Test ray: origin (0,0,0), direction (1,0,0), starting inside. -/
def rayInside : Ray :=
  { origin := { x := 0, y := 0, z := 0 }, direction := { x := 1, y := 0, z := 0 } }

/-- Test ray: origin (-10,1,0), direction (1,0,0), tangent to the sphere. -/
def rayTangent : Ray :=
  { origin := { x := -10, y := 1, z := 0 }, direction := { x := 1, y := 0, z := 0 } }

/-- Test ray: origin (-10,2,0), direction (1,0,0), a clean miss. -/
def rayMiss : Ray :=
  { origin := { x := -10, y := 2, z := 0 }, direction := { x := 1, y := 0, z := 0 } }

lemma sqrt_four : Real.sqrt 4 = 2 := by
  rw [show (4 : ℝ) = 2 ^ 2 by norm_num, Real.sqrt_sq (by norm_num : (0 : ℝ) ≤ 2)]

lemma eval_rayHit : unitSphere.intersect_t rayHit = some 9 := by
  simp only [Sphere.intersect_t, unitSphere, rayHit, Vec3.sub, Vec3.neg, Vec3.add, Vec3.dot]
  norm_num [sqrt_four]

lemma eval_rayAway : unitSphere.intersect_t rayAway = none := by
  simp only [Sphere.intersect_t, unitSphere, rayAway, Vec3.sub, Vec3.neg, Vec3.add, Vec3.dot]
  norm_num [sqrt_four]

lemma eval_rayInside : unitSphere.intersect_t rayInside = some 1 := by
  simp only [Sphere.intersect_t, unitSphere, rayInside, Vec3.sub, Vec3.neg, Vec3.add, Vec3.dot]
  norm_num [sqrt_four]

lemma eval_rayTangent : unitSphere.intersect_t rayTangent = some 10 := by
  simp only [Sphere.intersect_t, unitSphere, rayTangent, Vec3.sub, Vec3.neg, Vec3.add, Vec3.dot]
  norm_num [Real.sqrt_zero]

lemma eval_rayMiss : unitSphere.intersect_t rayMiss = none := by
  simp only [Sphere.intersect_t, unitSphere, rayMiss, Vec3.sub, Vec3.neg, Vec3.add, Vec3.dot]
  norm_num

/-- C1: for every sphere and every ray, intersect_t follows exactly the
claimed decision sequence: None on a negative discriminant, Some t1 when
t1 is nonnegative (a zero discriminant and t1 = 0 both count as hits),
Some t2 when t2 is strictly positive, otherwise None. -/
theorem intersect_t_follows_decision_sequence :
    ∀ (s : Sphere) (r : Ray), s.intersect_t r = intersect_t_specification s r := by
  intro s r
  simp only [Sphere.intersect_t, intersect_t_specification, pow_two, ge_iff_le, gt_iff_lt]

/-- C2: for the unit sphere at the origin, intersect_t returns Some 9,
None, Some 1, Some 10 and None respectively on the five test rays of the
repository test suite. -/
theorem intersect_t_test_vectors :
    unitSphere.intersect_t rayHit = some 9 ∧
    unitSphere.intersect_t rayAway = none ∧
    unitSphere.intersect_t rayInside = some 1 ∧
    unitSphere.intersect_t rayTangent = some 10 ∧
    unitSphere.intersect_t rayMiss = none :=
  ⟨eval_rayHit, eval_rayAway, eval_rayInside, eval_rayTangent, eval_rayMiss⟩

/-- C6: intersect returns Some (origin + direction * t) exactly when
intersect_t returns Some t and None when it returns None; on the two test
rays the reconstructed hit points are (-1,0,0) and (0,1,0). -/
theorem intersect_wrapper_correct :
    (∀ (s : Sphere) (r : Ray),
      s.intersect r =
        Option.map (fun t => Vec3.add r.origin (Vec3.mul r.direction t)) (s.intersect_t r)) ∧
    unitSphere.intersect rayHit = some { x := -1, y := 0, z := 0 } ∧
    unitSphere.intersect rayTangent = some { x := 0, y := 1, z := 0 } := by
  refine ⟨fun s r => ?_, ?_, ?_⟩
  · cases h : s.intersect_t r <;> simp [Sphere.intersect, h]
  · simp only [Sphere.intersect, eval_rayHit]
    simp only [rayHit, Vec3.add, Vec3.mul]
    norm_num
  · simp only [Sphere.intersect, eval_rayTangent]
    simp only [rayTangent, Vec3.add, Vec3.mul]
    norm_num

/-- C10: whenever intersect_t returns Some t, the returned distance t is
nonnegative; both return branches are guarded by a nonnegativity or strict
positivity test, so a negative distance is never returned. -/
theorem intersect_t_result_nonneg :
    ∀ (s : Sphere) (r : Ray) (t : ℝ), s.intersect_t r = some t → 0 ≤ t := by
  intro s r t h
  simp only [Sphere.intersect_t] at h
  split at h
  · simp at h
  · split at h
    · rename_i hge
      injection h with h
      subst h
      exact hge
    · split at h
      · rename_i hgt
        injection h with h
        subst h
        exact le_of_lt hgt
      · simp at h

/-- Witness for C10 at a concrete input: the hit test ray returns distance
9, which is nonnegative. -/
theorem intersect_t_result_nonneg_witness :
    unitSphere.intersect_t rayHit = some 9 ∧ (0 : ℝ) ≤ 9 :=
  ⟨eval_rayHit, intersect_t_result_nonneg unitSphere rayHit 9 eval_rayHit⟩

/-- Image width constant from src/main.rs. -/
def WIDTH : ℕ := 255

/-- Image height constant from src/main.rs. -/
def HEIGHT : ℕ := 255

/-- Color scale constant from src/main.rs. -/
def SCALE : ℕ := 255

/-- The Camera struct of src/main.rs: position, view direction and the up
vector named height. -/
structure Camera where
  position : Vec3
  direction : Vec3
  height : Vec3

/-- Camera width from src/main.rs: the cross product of direction and
height, divided by its own length and rescaled by the length of height. -/
def Camera.width (c : Camera) : Vec3 :=
  let w := Vec3.cross c.direction c.height
  Vec3.mul (Vec3.div w (Vec3.length w)) (Vec3.length c.height)

/-- Camera ray from src/main.rs: the first pixel coordinate is mapped to a
vertical offset along the height vector, the second to a horizontal offset
along the derived width vector, both as coordinate over image size minus
one half. -/
def Camera.ray (c : Camera) (x y : ℕ) : Ray :=
  let vertical_offset := (x : ℝ) / (WIDTH : ℝ) - 0.5
  let horizontal_offset := (y : ℝ) / (HEIGHT : ℝ) - 0.5
  { origin := c.position
    direction :=
      Vec3.add (Vec3.add c.direction (Vec3.mul c.height vertical_offset))
        (Vec3.mul (Camera.width c) horizontal_offset) }

lemma length_mul (v : Vec3) (k : ℝ) :
    Vec3.length (Vec3.mul v k) = Vec3.length v * |k| := by
  simp only [Vec3.length, Vec3.mul]
  rw [show (v.x * k) ^ 2 + (v.y * k) ^ 2 + (v.z * k) ^ 2
        = (v.x ^ 2 + v.y ^ 2 + v.z ^ 2) * k ^ 2 by ring,
      Real.sqrt_mul (by positivity), Real.sqrt_sq_eq_abs]

lemma length_div (v : Vec3) (k : ℝ) :
    Vec3.length (Vec3.div v k) = Vec3.length v / |k| := by
  simp only [Vec3.length, Vec3.div]
  rw [show (v.x / k) ^ 2 + (v.y / k) ^ 2 + (v.z / k) ^ 2
        = (v.x ^ 2 + v.y ^ 2 + v.z ^ 2) / k ^ 2 by ring,
      Real.sqrt_div (by positivity), Real.sqrt_sq_eq_abs]

lemma length_pos_of_ne_zero (v : Vec3) (hv : v ≠ { x := 0, y := 0, z := 0 }) :
    0 < Vec3.length v := by
  rw [Vec3.length]
  apply Real.sqrt_pos.mpr
  rcases lt_or_eq_of_le (by positivity : (0 : ℝ) ≤ v.x ^ 2 + v.y ^ 2 + v.z ^ 2) with h | h
  · exact h
  · exfalso
    apply hv
    have hx2 : v.x ^ 2 = 0 := by nlinarith [sq_nonneg v.x, sq_nonneg v.y, sq_nonneg v.z]
    have hy2 : v.y ^ 2 = 0 := by nlinarith [sq_nonneg v.x, sq_nonneg v.y, sq_nonneg v.z]
    have hz2 : v.z ^ 2 = 0 := by nlinarith [sq_nonneg v.x, sq_nonneg v.y, sq_nonneg v.z]
    rw [Vec3.ext_iff']
    exact ⟨(pow_eq_zero_iff (by norm_num)).mp hx2,
           (pow_eq_zero_iff (by norm_num)).mp hy2,
           (pow_eq_zero_iff (by norm_num)).mp hz2⟩

lemma length_rescale (w h : Vec3) (hw : w ≠ { x := 0, y := 0, z := 0 }) :
    Vec3.length (Vec3.mul (Vec3.div w (Vec3.length w)) (Vec3.length h)) = Vec3.length h := by
  have hL : 0 < Vec3.length w := length_pos_of_ne_zero w hw
  have hH : 0 ≤ Vec3.length h := Real.sqrt_nonneg _
  rw [length_mul, length_div, abs_of_nonneg hL.le, abs_of_nonneg hH, div_self hL.ne', one_mul]

lemma dot_mul_left (v u : Vec3) (k : ℝ) :
    Vec3.dot (Vec3.mul v k) u = k * Vec3.dot v u := by
  simp only [Vec3.dot, Vec3.mul]
  ring

lemma dot_div_left (v u : Vec3) (k : ℝ) :
    Vec3.dot (Vec3.div v k) u = Vec3.dot v u / k := by
  simp only [Vec3.dot, Vec3.div]
  ring

lemma dot_cross_left (a b : Vec3) : Vec3.dot (Vec3.cross a b) a = 0 := by
  simp only [Vec3.dot, Vec3.cross]
  ring

lemma dot_cross_right (a b : Vec3) : Vec3.dot (Vec3.cross a b) b = 0 := by
  simp only [Vec3.dot, Vec3.cross]
  ring

/-- C5: for a camera whose direction and height are perpendicular and whose
cross product is nonzero, the derived width vector has the same length as
height and is perpendicular to both direction and height. -/
theorem camera_width_basis :
    ∀ c : Camera, Vec3.dot c.direction c.height = 0 →
      Vec3.cross c.direction c.height ≠ { x := 0, y := 0, z := 0 } →
      Vec3.length (Camera.width c) = Vec3.length c.height ∧
      Vec3.dot (Camera.width c) c.direction = 0 ∧
      Vec3.dot (Camera.width c) c.height = 0 := by
  intro c hperp hcross
  refine ⟨?_, ?_, ?_⟩
  · simpa [Camera.width] using
      length_rescale (Vec3.cross c.direction c.height) c.height hcross
  · simp [Camera.width, dot_mul_left, dot_div_left, dot_cross_left]
  · simp [Camera.width, dot_mul_left, dot_div_left, dot_cross_right]

/-- The camera of the documented scene in get_raydistance_color. -/
def sceneCamera : Camera :=
  { position := { x := -10, y := 0, z := 0 }
    direction := { x := 10, y := 0, z := 0 }
    height := { x := 0, y := 1, z := 0 } }

/-- The sphere of the documented scene in get_raydistance_color. -/
def sceneSphere : Sphere :=
  { radius := 1, position := { x := 10, y := 0, z := 0 } }

/-- Witness for C5 at the documented scene camera, whose direction (10,0,0)
and height (0,1,0) are perpendicular with nonzero cross product. -/
theorem camera_width_basis_witness :
    Vec3.dot sceneCamera.direction sceneCamera.height = 0 ∧
    Vec3.length (Camera.width sceneCamera) = Vec3.length sceneCamera.height ∧
    Vec3.dot (Camera.width sceneCamera) sceneCamera.direction = 0 ∧
    Vec3.dot (Camera.width sceneCamera) sceneCamera.height = 0 := by
  have h1 : Vec3.dot sceneCamera.direction sceneCamera.height = 0 := by
    norm_num [sceneCamera, Vec3.dot]
  have h2 : Vec3.cross sceneCamera.direction sceneCamera.height
      ≠ { x := 0, y := 0, z := 0 } := by
    simp [sceneCamera, Vec3.cross, Vec3.ext_iff']
  obtain ⟨ha, hb, hc⟩ := camera_width_basis sceneCamera h1 h2
  exact ⟨h1, ha, hb, hc⟩

lemma offset_bounds (n : ℕ) (hn : n < 255) :
    -0.5 ≤ (n : ℝ) / 255 - 0.5 ∧ (n : ℝ) / 255 - 0.5 < 0.5 := by
  have h1 : (0 : ℝ) ≤ (n : ℝ) := Nat.cast_nonneg n
  have h2 : (n : ℝ) < 255 := by exact_mod_cast hn
  have hd1 : (0 : ℝ) ≤ (n : ℝ) / 255 := by positivity
  have hd2 : (n : ℝ) / 255 < 1 := by
    rw [div_lt_one (by norm_num : (0 : ℝ) < 255)]
    exact h2
  constructor
  · rw [show (0.5 : ℝ) = 1 / 2 by norm_num]
    linarith
  · rw [show (0.5 : ℝ) = 1 / 2 by norm_num]
    linarith

/-- C3: for every camera and pixel coordinates below 255, the generated ray
starts at the camera position, its direction offsets the view direction by
the height vector scaled with the first coordinate and the width vector
scaled with the second coordinate, and both offsets lie in the half-open
interval from minus one half to one half. -/
theorem camera_ray_formula :
    ∀ (c : Camera) (x y : ℕ), x < 255 → y < 255 →
      (c.ray x y).origin = c.position ∧
      (c.ray x y).direction =
        Vec3.add (Vec3.add c.direction (Vec3.mul c.height ((x : ℝ) / 255 - 0.5)))
          (Vec3.mul (Camera.width c) ((y : ℝ) / 255 - 0.5)) ∧
      (-0.5 ≤ (x : ℝ) / 255 - 0.5 ∧ (x : ℝ) / 255 - 0.5 < 0.5) ∧
      (-0.5 ≤ (y : ℝ) / 255 - 0.5 ∧ (y : ℝ) / 255 - 0.5 < 0.5) := by
  intro c x y hx hy
  refine ⟨rfl, ?_, offset_bounds x hx, offset_bounds y hy⟩
  simp [Camera.ray, WIDTH, HEIGHT]

/-- Witness for C3 at the documented scene camera and pixel (3, 7). -/
theorem camera_ray_formula_witness :
    (sceneCamera.ray 3 7).origin = sceneCamera.position ∧
    (sceneCamera.ray 3 7).direction =
      Vec3.add (Vec3.add sceneCamera.direction (Vec3.mul sceneCamera.height ((3 : ℝ) / 255 - 0.5)))
        (Vec3.mul (Camera.width sceneCamera) ((7 : ℝ) / 255 - 0.5)) ∧
    (-0.5 ≤ (3 : ℝ) / 255 - 0.5 ∧ (3 : ℝ) / 255 - 0.5 < 0.5) ∧
    (-0.5 ≤ (7 : ℝ) / 255 - 0.5 ∧ (7 : ℝ) / 255 - 0.5 < 0.5) := by
  have h := camera_ray_formula sceneCamera 3 7 (by norm_num) (by norm_num)
  simpa using h

/-- Saturating cast from a scalar to u8 as performed by a Rust as-cast,
restricted to the NaN-free real model: at or below zero gives 0, at or
above 255 gives 255, otherwise truncation toward zero. -/
def f32_as_u8 (v : ℝ) : ℕ :=
  if v ≤ 0 then 0
  else if 255 ≤ v then 255
  else (⌊v⌋).toNat

/-- get_gradient_color from src/main.rs, with the u16 arithmetic of the
source modelled exactly: the product wraps at sixteen bits and the cast to
u8 truncates to eight bits. -/
def get_gradient_color (x y : ℕ) : List ℕ :=
  [x * SCALE % 65536 / WIDTH % 256, y * SCALE % 65536 / HEIGHT % 256, 0, 255]

/-- get_raydistance_color from src/main.rs: shoots the camera ray of the
documented scene for the pixel, colors by distance on a hit and by the
gradient on a miss. -/
def get_raydistance_color (x y : ℕ) : List ℕ :=
  match sceneSphere.intersect_t (sceneCamera.ray x y) with
  | none => get_gradient_color x y
  | some t => [f32_as_u8 ((t - 1.9) * 1000), 0, 0, 255]

lemma gradient_eval (x y : ℕ) (hx : x < 255) (hy : y < 255) :
    get_gradient_color x y = [x * 255 / WIDTH, y * 255 / HEIGHT, 0, 255] := by
  have e1 : x * 255 % 65536 / 255 % 256 = x * 255 / 255 := by
    rw [Nat.mod_eq_of_lt (by omega : x * 255 < 65536),
        show x * 255 / 255 = x by omega]
    exact Nat.mod_eq_of_lt (by omega)
  have e2 : y * 255 % 65536 / 255 % 256 = y * 255 / 255 := by
    rw [Nat.mod_eq_of_lt (by omega : y * 255 < 65536),
        show y * 255 / 255 = y by omega]
    exact Nat.mod_eq_of_lt (by omega)
  simp only [get_gradient_color, SCALE, WIDTH, HEIGHT, e1, e2]

/-- C4: for every pixel with both coordinates below 255, the per-pixel color
of the documented scene is the gradient quadruple when the camera ray
misses the sphere and the distance-based red quadruple when intersect_t
returns a distance t. -/
theorem raydistance_color_cases :
    ∀ x y : ℕ, x < 255 → y < 255 →
      (sceneSphere.intersect_t (sceneCamera.ray x y) = none →
        get_raydistance_color x y = [x * 255 / WIDTH, y * 255 / HEIGHT, 0, 255]) ∧
      (∀ t : ℝ, sceneSphere.intersect_t (sceneCamera.ray x y) = some t →
        get_raydistance_color x y = [f32_as_u8 ((t - 1.9) * 1000), 0, 0, 255]) := by
  intro x y hx hy
  constructor
  · intro h
    simp only [get_raydistance_color, h]
    exact gradient_eval x y hx hy
  · intro t h
    simp only [get_raydistance_color, h]

lemma sqrt_hundred : Real.sqrt 100 = 10 := by
  rw [show (100 : ℝ) = 10 ^ 2 by norm_num, Real.sqrt_sq (by norm_num : (0 : ℝ) ≤ 10)]

lemma scene_width_eval : Camera.width sceneCamera = { x := 0, y := 0, z := 1 } := by
  simp only [Camera.width, sceneCamera, Vec3.cross, Vec3.length, Vec3.div, Vec3.mul]
  norm_num [Vec3.ext_iff', sqrt_hundred]

lemma eval_pixel00 : sceneSphere.intersect_t (sceneCamera.ray 0 0) = none := by
  have hray : sceneCamera.ray 0 0 =
      { origin := { x := -10, y := 0, z := 0 }
        direction := { x := 10, y := -0.5, z := -0.5 } } := by
    simp only [Camera.ray, WIDTH, HEIGHT, scene_width_eval]
    simp only [sceneCamera, Vec3.add, Vec3.mul]
    norm_num [Ray.mk.injEq, Vec3.mk.injEq]
  rw [hray]
  simp only [Sphere.intersect_t, sceneSphere, Vec3.sub, Vec3.neg, Vec3.add, Vec3.dot]
  norm_num

/-- Witness for C4 at pixel (0, 0), whose corner ray misses the sphere, so
the color is the gradient value. -/
theorem raydistance_color_cases_witness :
    get_raydistance_color 0 0 = [0 * 255 / WIDTH, 0 * 255 / HEIGHT, 0, 255] :=
  (raydistance_color_cases 0 0 (by norm_num) (by norm_num)).1 eval_pixel00
